import Mathlib

/-!
Verification of the bibliography-fragment generator `generate_publications.py`.

Python strings are modelled as `List Char`; a Python `raise` is modelled as `none`.
All definitions are executable and structurally recursive so that concrete instances
evaluate by `decide`.
-/

namespace PubGen

/-- Python strings are modelled as lists of characters. -/
abbrev Str := List Char

/-- The backslash character, written via its code point to keep literals unambiguous. -/
def bslash : Char := Char.ofNat 92

/-- The single-quote character. -/
def squote : Char := Char.ofNat 39

/-- The backquote character. -/
def bquote : Char := Char.ofNat 96

/-- The double-quote character. -/
def dquote : Char := Char.ofNat 34

/-- The opening-brace character. -/
def lbrace : Char := Char.ofNat 123

/-- The closing-brace character. -/
def rbrace : Char := Char.ofNat 125

/-- The newline character. -/
def nl : Char := Char.ofNat 10

/-- Does `pat` occur in `s` starting at index `i`? (Python substring occurrence.) -/
def matchAt (s pat : Str) (i : Nat) : Bool :=
  pat.isPrefixOf (s.drop i)

/-- All indices at which `pat` occurs in `s`, in increasing order. -/
def occurrences (s pat : Str) : List Nat :=
  (List.range (s.length + 1)).filter (fun i => matchAt s pat i)

/-- Embedding of Python `s.find(pat, start)` for a non-negative `start`: the least index
`≥ start` at which `pat` occurs in `s`, or `none` (Python returns `-1`). -/
def pyFind (s pat : Str) (start : Nat) : Option Nat :=
  ((List.range (s.length + 1)).filter (fun i => decide (start ≤ i) && matchAt s pat i)).head?

/-- Embedding of `replace_between_markers` (src/generate_publications.py lines 139-144).
The second `find` starts at `start`, the index where the begin-marker occurrence BEGINS.
`raise ValueError(...)` is modelled as `none`; when the begin marker is absent the Python
code raises regardless of the second `find`, which is observationally `none` here too. -/
def replace_between_markers (text begin_marker end_marker new_content : Str) : Option Str :=
  match pyFind text begin_marker 0 with
  | none => none
  | some start =>
    match pyFind text end_marker start with
    | none => none
    | some e =>
      some (text.take (start + begin_marker.length) ++ [nl] ++ new_content ++ [nl] ++ text.drop e)

theorem pyFind_eq (s pat : Str) (start : Nat) :
    pyFind s pat start = ((occurrences s pat).filter (fun i => decide (start ≤ i))).head? := by
  unfold pyFind occurrences
  rw [List.filter_filter]

theorem occ_mem (s pat : Str) (i : Nat) :
    i ∈ occurrences s pat ↔ i ≤ s.length ∧ matchAt s pat i = true := by
  simp [occurrences, List.mem_filter, List.mem_range, Nat.lt_succ_iff]

theorem pyFind_of_occ_singleton {s pat : Str} {k start : Nat}
    (h : occurrences s pat = [k]) (hs : start ≤ k) : pyFind s pat start = some k := by
  rw [pyFind_eq, h]
  simp [List.filter, hs]

theorem head?_filter_range {p : Nat → Bool} {n k : Nat}
    (hk : k < n) (hpk : p k = true) (hmin : ∀ m, m < k → p m = false) :
    ((List.range n).filter p).head? = some k := by
  induction n with
  | zero => omega
  | succ n ih =>
    rw [List.range_succ, List.filter_append, List.head?_append]
    rcases Nat.lt_or_ge k n with h | h
    · rw [ih h]
      rfl
    · have hk' : k = n := by omega
      subst hk'
      have hnil : (List.range k).filter p = [] := by
        rw [List.filter_eq_nil_iff]
        intro a ha
        simp only [List.mem_range] at ha
        simp [hmin a ha]
      rw [hnil]
      simp [List.filter, hpk]

theorem pyFind_intro {s pat : Str} {start k : Nat}
    (hk : k ≤ s.length) (hm : matchAt s pat k = true) (hs : start ≤ k)
    (hmin : ∀ p, start ≤ p → p < k → matchAt s pat p = false) :
    pyFind s pat start = some k := by
  unfold pyFind
  refine head?_filter_range (Nat.lt_succ_of_le hk) (by simp [hs, hm]) ?_
  intro m hmk
  rcases Nat.lt_or_ge m start with h | h
  · simp [Nat.not_le.mpr h]
  · simp [hmin m h hmk]

/-- C1: when the begin marker occurs exactly once in the text, the end marker occurs exactly
once, and the begin marker's occurrence is strictly before the end marker's, splicing returns
the prefix of the text up to and including the begin marker, a newline, the new content
verbatim, a newline, and the suffix of the text from the end marker's occurrence on. -/
theorem C1_splice_formula (text B E C : Str) (i j : Nat)
    (hB : occurrences text B = [i]) (hE : occurrences text E = [j]) (hij : i < j) :
    replace_between_markers text B E C =
      some (text.take (i + B.length) ++ [nl] ++ C ++ [nl] ++ text.drop j) := by
  unfold replace_between_markers
  simp only [pyFind_of_occ_singleton hB (Nat.zero_le i),
    pyFind_of_occ_singleton hE (Nat.le_of_lt hij)]

theorem C1_splice_formula_witness :
    occurrences (("aXbYc").toList) (("X").toList) = [1] ∧
    occurrences (("aXbYc").toList) (("Y").toList) = [3] ∧
    (1 : Nat) < 3 ∧
    replace_between_markers (("aXbYc").toList) (("X").toList) (("Y").toList) (("z").toList) =
      some ((("aXbYc").toList).take 2 ++ [nl] ++ ("z").toList ++ [nl] ++ (("aXbYc").toList).drop 3) :=
  ⟨by decide, by decide, by decide,
    C1_splice_formula _ _ _ _ 1 3 (by decide) (by decide) (by decide)⟩

/-- C2 counterexample: in the text `aEb` with begin marker `aE`, the end marker `E` does not
occur at or after position 2, the end of the begin-marker occurrence — yet the splicer
succeeds, because the code searches for the end marker from the START index of the
begin-marker occurrence (index 0 here), where the embedded `E` is found at index 1. -/
theorem C2_counterexample :
    (occurrences (("aEb").toList) (("E").toList)).filter (fun i => decide (2 ≤ i)) = [] ∧
    replace_between_markers (("aEb").toList) (("aE").toList) (("E").toList) (("c").toList) =
      some (("aE").toList ++ [nl] ++ ("c").toList ++ [nl] ++ ("Eb").toList) := by
  exact ⟨by decide, by decide⟩

/-- C2 (amended): the splicer fails exactly when the begin marker is absent, or when the end
marker is absent at or after the START index of the first begin-marker occurrence (not its
end); an end-marker occurrence inside the begin marker's own span is accepted. -/
theorem C2_amended_failure_condition (text B E C : Str) :
    replace_between_markers text B E C = none ↔
      (occurrences text B = [] ∨
        ∃ s, (occurrences text B).head? = some s ∧
          (occurrences text E).filter (fun i => decide (s ≤ i)) = []) := by
  have hBfind : pyFind text B 0 = (occurrences text B).head? := by
    rw [pyFind_eq]
    congr 1
    exact List.filter_eq_self.mpr (fun a _ => by simp)
  rcases hocc : (occurrences text B).head? with _ | s
  · have hB0 : pyFind text B 0 = none := by rw [hBfind, hocc]
    have hBnil : occurrences text B = [] := List.head?_eq_none_iff.mp hocc
    unfold replace_between_markers
    simp [hB0, hBnil]
  · have hB0 : pyFind text B 0 = some s := by rw [hBfind, hocc]
    have hne : occurrences text B ≠ [] := by
      intro h
      rw [h] at hocc
      exact Option.noConfusion hocc
    have hEfind : pyFind text E s =
        ((occurrences text E).filter (fun i => decide (s ≤ i))).head? := pyFind_eq _ _ _
    unfold replace_between_markers
    simp only [hB0, hocc]
    rcases hE : pyFind text E s with _ | e
    · simp only [hE]
      have hfil : (occurrences text E).filter (fun i => decide (s ≤ i)) = [] := by
        rw [hEfind] at hE
        exact List.head?_eq_none_iff.mp hE
      constructor
      · intro _
        exact Or.inr ⟨s, rfl, hfil⟩
      · intro _
        trivial
    · simp only [hE]
      constructor
      · intro h
        exact Option.noConfusion h
      · rintro (h | ⟨s', hs', hfil⟩)
        · exact absurd h hne
        · injection hs' with hs'
          subst hs'
          rw [hEfind, hfil] at hE
          exact Option.noConfusion hE

/-- C6 counterexample: splicing `X <!--B--> old <!--E--> Y` yields a result in which the kept
suffix starts exactly at `<!--E-->`; the space that preceded the end marker belongs to the
replaced span, so the spec's expected string (with a space before `<!--E-->`) is wrong. -/
theorem C6_counterexample :
    replace_between_markers (("X <!--B--> old <!--E--> Y").toList) (("<!--B-->").toList)
        (("<!--E-->").toList) (("new").toList) =
      some (("X <!--B-->\nnew\n<!--E--> Y").toList) ∧
    ("X <!--B-->\nnew\n<!--E--> Y").toList ≠ ("X <!--B-->\nnew\n <!--E--> Y").toList := by
  exact ⟨by decide, by decide⟩

/-- C6 (amended): splicing `X <!--B--> old <!--E--> Y` with begin marker `<!--B-->`,
end marker `<!--E-->` and new content `new` yields exactly
`X <!--B-->` + newline + `new` + newline + `<!--E--> Y`, with no space before the end marker. -/
theorem C6_amended_example :
    replace_between_markers (("X <!--B--> old <!--E--> Y").toList) (("<!--B-->").toList)
        (("<!--E-->").toList) (("new").toList) =
      some (("X <!--B-->\nnew\n<!--E--> Y").toList) := by
  decide

/-- C7 counterexample: the text `ab x b` + newline + `c` contains begin marker `ab` exactly
once and end marker `b` + newline + `c` exactly once, with begin before end and with new
content `c` containing neither marker; yet re-splicing the splice result changes it again,
because a new end-marker occurrence straddles the inserted content in the result. -/
theorem C7_counterexample :
    occurrences (("ab x b\nc").toList) (("ab").toList) = [0] ∧
    occurrences (("ab x b\nc").toList) (("b\nc").toList) = [5] ∧
    occurrences (("c").toList) (("ab").toList) = [] ∧
    occurrences (("c").toList) (("b\nc").toList) = [] ∧
    (replace_between_markers (("ab x b\nc").toList) (("ab").toList) (("b\nc").toList)
          (("c").toList)).bind
        (fun r => replace_between_markers r (("ab").toList) (("b\nc").toList) (("c").toList)) ≠
      replace_between_markers (("ab x b\nc").toList) (("ab").toList) (("b\nc").toList)
        (("c").toList) := by
  exact ⟨by decide, by decide, by decide, by decide, by decide⟩

theorem matchAt_iff {s pat : Str} {i : Nat} : matchAt s pat i = true ↔ pat <+: s.drop i := by
  simp [matchAt]

theorem add_length_le {s pat : Str} {i : Nat} (hi : i ≤ s.length) (h : matchAt s pat i = true) :
    i + pat.length ≤ s.length := by
  have h2 := (matchAt_iff.mp h).length_le
  rw [List.length_drop] at h2
  omega

theorem occ_singleton_elim {s pat : Str} {k : Nat} (h : occurrences s pat = [k]) :
    k ≤ s.length ∧ matchAt s pat k = true ∧
      ∀ p, p ≤ s.length → matchAt s pat p = true → p = k := by
  have hk : k ∈ occurrences s pat := by
    rw [h]
    exact List.mem_singleton.mpr rfl
  rw [occ_mem] at hk
  refine ⟨hk.1, hk.2, ?_⟩
  intro p hp hm
  have hmem : p ∈ occurrences s pat := (occ_mem _ _ _).mpr ⟨hp, hm⟩
  rw [h] at hmem
  simpa using hmem

theorem prefix_append_of_le {z y pat : Str} (hlen : pat.length ≤ z.length) :
    pat <+: z ++ y ↔ pat <+: z := by
  constructor
  · intro h
    rw [List.prefix_iff_eq_take] at h ⊢
    rwa [List.take_append_of_le_length hlen] at h
  · intro h
    exact h.trans (List.prefix_append z y)

theorem matchAt_append_left {x y pat : Str} {p : Nat} (hp : p + pat.length ≤ x.length) :
    matchAt (x ++ y) pat p = true ↔ matchAt x pat p = true := by
  have hple : p ≤ x.length := by omega
  have hlen : pat.length ≤ (x.drop p).length := by
    rw [List.length_drop]
    omega
  rw [matchAt_iff, matchAt_iff, List.drop_append_of_le_length hple]
  exact prefix_append_of_le hlen

theorem matchAt_append_right (x y pat : Str) (p : Nat) :
    matchAt (x ++ y) pat (x.length + p) = matchAt y pat p := by
  rw [matchAt, matchAt, List.drop_append]

theorem matchAt_take {s pat : Str} {n p : Nat} (hp : p + pat.length ≤ n) (hn : n ≤ s.length) :
    matchAt (s.take n) pat p = true ↔ matchAt s pat p = true := by
  conv_rhs => rw [← List.take_append_drop n s]
  refine (matchAt_append_left ?_).symm
  rw [List.length_take]
  omega

/-- C7 (amended): under the original hypotheses (both markers occur exactly once in the text,
begin strictly before end, new content contains neither marker — the latter being subsumed
here), re-splicing the splice result with the same markers succeeds and returns the result
unchanged, PROVIDED the end marker occurs exactly once in that result.  The proviso is forced:
without it the end marker can reappear earlier in the result, straddling the inserted content,
and re-splicing then changes the text again. -/
theorem C7_amended_resplice_id (text B E C r : Str) (i j q : Nat)
    (hB : occurrences text B = [i]) (hE : occurrences text E = [j]) (hij : i < j)
    (hr : replace_between_markers text B E C = some r)
    (hq : occurrences r E = [q]) :
    replace_between_markers r B E C = some r := by
  obtain ⟨hBle, hBmat, hBuniq⟩ := occ_singleton_elim hB
  obtain ⟨hEle, hEmat, hEuniq⟩ := occ_singleton_elim hE
  obtain ⟨hqle, hqmat, hquniq⟩ := occ_singleton_elim hq
  have hiB : i + B.length ≤ text.length := add_length_le hBle hBmat
  have hr' : r = text.take (i + B.length) ++ [nl] ++ C ++ [nl] ++ text.drop j := by
    unfold replace_between_markers at hr
    simp only [pyFind_of_occ_singleton hB (Nat.zero_le i),
      pyFind_of_occ_singleton hE (Nat.le_of_lt hij)] at hr
    exact (Option.some_inj.mp hr).symm
  have hPlen : (text.take (i + B.length)).length = i + B.length := by
    rw [List.length_take]
    omega
  have hrPS : r = text.take (i + B.length) ++ ([nl] ++ C ++ [nl] ++ text.drop j) := by
    rw [hr']
    simp [List.append_assoc]
  have hrWS : r = (text.take (i + B.length) ++ [nl] ++ C ++ [nl]) ++ text.drop j := by
    rw [hr']
  have hWlen : (text.take (i + B.length) ++ [nl] ++ C ++ [nl]).length
      = i + B.length + 1 + C.length + 1 := by
    simp [hPlen]
    omega
  have hrlen : r.length = i + B.length + 1 + C.length + 1 + (text.drop j).length := by
    rw [hrWS, List.length_append, hWlen]
  have hfindB : pyFind r B 0 = some i := by
    apply pyFind_intro
    · omega
    · rw [hrPS]
      refine (matchAt_append_left ?_).mpr ?_
      · rw [hPlen]
      · exact (matchAt_take (by omega) hiB).mpr hBmat
    · exact Nat.zero_le i
    · intro p _ hpi
      by_contra hc
      rw [Bool.not_eq_false] at hc
      rw [hrPS] at hc
      have h1 : matchAt (text.take (i + B.length)) B p = true := by
        refine (matchAt_append_left ?_).mp hc
        rw [hPlen]
        omega
      have h2 : matchAt text B p = true := (matchAt_take (by omega) hiB).mp h1
      have := hBuniq p (by omega) h2
      omega
  have hmatW : matchAt r E ((text.take (i + B.length) ++ [nl] ++ C ++ [nl]).length) = true := by
    have h0 := matchAt_append_right (text.take (i + B.length) ++ [nl] ++ C ++ [nl])
      (text.drop j) E 0
    rw [← hrWS, Nat.add_zero] at h0
    rw [h0]
    simpa [matchAt] using hEmat
  have hqW : q = (text.take (i + B.length) ++ [nl] ++ C ++ [nl]).length := by
    refine (hquniq _ ?_ hmatW).symm
    omega
  have hfindE : pyFind r E i = some q := by
    apply pyFind_intro hqle hqmat
    · rw [hqW, hWlen]
      omega
    · intro p hip hpq
      by_contra hc
      rw [Bool.not_eq_false] at hc
      have := hquniq p (by omega) hc
      omega
  unfold replace_between_markers
  simp only [hfindB, hfindE]
  congr 1
  have htake : r.take (i + B.length) = text.take (i + B.length) := by
    rw [hrPS]
    exact List.take_left' hPlen
  have hdrop : r.drop q = text.drop j := by
    rw [hqW, hrWS]
    exact List.drop_left' rfl
  rw [htake, hdrop, hr']

theorem C7_amended_resplice_id_witness :
    occurrences (("x[B]old[E]y").toList) (("[B]").toList) = [1] ∧
    occurrences (("x[B]old[E]y").toList) (("[E]").toList) = [7] ∧
    occurrences (("x[B]\nnew\n[E]y").toList) (("[E]").toList) = [9] ∧
    replace_between_markers (("x[B]\nnew\n[E]y").toList) (("[B]").toList) (("[E]").toList)
        (("new").toList) = some (("x[B]\nnew\n[E]y").toList) :=
  ⟨by decide, by decide, by decide,
    C7_amended_resplice_id (("x[B]old[E]y").toList) (("[B]").toList) (("[E]").toList)
      (("new").toList) (("x[B]\nnew\n[E]y").toList) 1 7 9
      (by decide) (by decide) (by decide) (by decide) (by decide)⟩

/-- The space character. -/
def spaceChar : Char := Char.ofNat 32

/-- Fuel-driven core of Python `str.replace`: replace the non-overlapping occurrences of
`pat`, scanning left to right.  The fuel (initialized to the length of the string) suffices
because every step consumes at least one character.  Faithful for nonempty `pat`; the program
only ever calls it with nonempty patterns. -/
def pyReplaceAux (pat rep : Str) : Nat → Str → Str
  | _, [] => []
  | 0, s => s
  | fuel + 1, c :: cs =>
    if pat ≠ [] ∧ pat.isPrefixOf (c :: cs) then
      rep ++ pyReplaceAux pat rep fuel ((c :: cs).drop pat.length)
    else
      c :: pyReplaceAux pat rep fuel cs

/-- Embedding of Python `s.replace(pat, rep)` for nonempty `pat`. -/
def pyReplace (pat rep s : Str) : Str := pyReplaceAux pat rep s.length s

/-- Fuel-driven core of Python `s.split(sep)` for nonempty `sep`. -/
def pySplitAux (sep : Str) : Nat → Str → List Str
  | _, [] => [[]]
  | 0, s => [s]
  | fuel + 1, c :: cs =>
    if sep ≠ [] ∧ sep.isPrefixOf (c :: cs) then
      [] :: pySplitAux sep fuel ((c :: cs).drop sep.length)
    else
      match pySplitAux sep fuel cs with
      | [] => [[c]]
      | p :: ps => (c :: p) :: ps

/-- Embedding of Python `s.split(sep)` for nonempty `sep`. -/
def pySplit (sep s : Str) : List Str := pySplitAux sep s.length s

/-- Embedding of Python `s.strip()`: remove whitespace from both ends (`Char.isWhitespace`
covers the whitespace occurring in the program's data). -/
def pyStripWs (s : Str) : Str := (s.dropWhile Char.isWhitespace).rdropWhile Char.isWhitespace

/-- Embedding of Python `s.strip(chars)`: remove, from both ends, every character of the
given set. -/
def pyStripChars (p : Char → Bool) (s : Str) : Str := (s.dropWhile p).rdropWhile p

/-- Embedding of Python `sep.join(parts)`. -/
def pyJoin (sep : Str) : List Str → Str
  | [] => []
  | [x] => x
  | x :: y :: ys => x ++ sep ++ pyJoin sep (y :: ys)

/-- Embedding of the Python substring test `pat in s`. -/
def containsSub (s pat : Str) : Bool := (pyFind s pat 0).isSome

/-- The replacement table of `latex_to_unicode` (src lines 16-23), in source order.  Keys are
spelled as explicit character lists; note that the last key, written `r"\\&"` in the source,
is the three-character sequence backslash-backslash-ampersand. -/
def replacements : List (Str × Str) :=
  [ ([lbrace, bslash, squote, 'a', rbrace], ['á']),
    ([lbrace, bslash, squote, 'e', rbrace], ['é']),
    ([lbrace, bslash, squote, 'i', rbrace], ['í']),
    ([lbrace, bslash, squote, 'o', rbrace], ['ó']),
    ([lbrace, bslash, squote, 'u', rbrace], ['ú']),
    ([lbrace, bslash, bquote, 'a', rbrace], ['à']),
    ([lbrace, bslash, bquote, 'e', rbrace], ['è']),
    ([lbrace, bslash, bquote, 'i', rbrace], ['ì']),
    ([lbrace, bslash, bquote, 'o', rbrace], ['ò']),
    ([lbrace, bslash, bquote, 'u', rbrace], ['ù']),
    ([lbrace, bslash, '^', 'a', rbrace], ['â']),
    ([lbrace, bslash, '^', 'e', rbrace], ['ê']),
    ([lbrace, bslash, '^', 'i', rbrace], ['î']),
    ([lbrace, bslash, '^', 'o', rbrace], ['ô']),
    ([lbrace, bslash, '^', 'u', rbrace], ['û']),
    ([lbrace, bslash, dquote, 'a', rbrace], ['ä']),
    ([lbrace, bslash, dquote, 'e', rbrace], ['ë']),
    ([lbrace, bslash, dquote, 'i', rbrace], ['ï']),
    ([lbrace, bslash, dquote, 'o', rbrace], ['ö']),
    ([lbrace, bslash, dquote, 'u', rbrace], ['ü']),
    ([lbrace, bslash, '~', 'n', rbrace], ['ñ']),
    ([lbrace, bslash, 'c', lbrace, 'c', rbrace, rbrace], ['ç']),
    ([bslash, bslash, '&'], ['&']) ]

/-- Embedding of `latex_to_unicode` (src lines 14-26): apply the replacement table in source
order, then delete every brace character (`re.sub(r"[{}]", "", s)`). -/
def latex_to_unicode (s : Str) : Str :=
  (replacements.foldl (fun acc p => pyReplace p.1 p.2 acc) s).filter
    (fun c => !(c == lbrace || c == rbrace))

/-- Embedding of `format_authors` (src lines 32-44).  The module-level configuration constant
`author_to_bold` is lifted to an explicit parameter. -/
def format_authors (author_to_bold : Str) (authors_raw : Str) (html : Bool) : Str :=
  let authors := (pySplit ((" and ").toList) (pyReplace [nl] [spaceChar] authors_raw)).map pyStripWs
  let out := authors.map (fun a =>
    if containsSub a author_to_bold then
      if html then ("<strong>").toList ++ a ++ ("</strong>").toList
      else ("\\textbf\x7b").toList ++ a ++ ("\x7d").toList
    else a)
  let authors_str := pyJoin ((", ").toList) out
  if html then latex_to_unicode authors_str else authors_str

/-- A bibliography record: an association list from field name to value (a Python dict). -/
abbrev Entry := List (Str × Str)

/-- Embedding of Python `entry.get(key, "")`.  Also used for `entry["ENTRYTYPE"]`, which is
always present in the program's data (an absent `ENTRYTYPE` here yields the empty string and
so the unrecognized-kind result, rather than a `KeyError`). -/
def eget (e : Entry) (k : Str) : Str := (List.lookup k e).getD []

/-- Embedding of `format_publication` (src lines 46-110): returns the `(category, line)` pair,
with the Python `(None, None)` result modelled as `(none, none)`.  The `author_to_bold`
configuration constant is an explicit parameter.  The HAL branch of the journal/structured
case is commented out in the source (lines 83-84) and is accordingly absent here. -/
def format_publication (author_to_bold : Str) (entry : Entry) (html : Bool) :
    Option Str × Option Str :=
  let etype := (eget entry (("ENTRYTYPE").toList)).map Char.toLower
  let authors := format_authors author_to_bold (eget entry (("author").toList)) html
  let title0 := pyStripChars (fun c => c == lbrace || c == rbrace)
    (eget entry (("title").toList))
  let title := if html then latex_to_unicode title0 else title0
  let year := eget entry (("year").toList)
  let doi := eget entry (("doi").toList)
  let hal := if eget entry (("hal_id").toList) ≠ [] then eget entry (("hal_id").toList)
             else eget entry (("url").toList)
  if etype = ("article").toList then
    let journal := eget entry (("journal").toList)
    let vol := eget entry (("volume").toList)
    let num := eget entry (("number").toList)
    let pages := eget entry (("pages").toList)
    let details :=
      journal ++ (if vol ≠ [] then (", ").toList ++ vol else []) ++
        (if num ≠ [] then ("(").toList ++ num ++ (")").toList else []) ++
        (if pages ≠ [] then (", ").toList ++ pages else []) ++
        (if year ≠ [] then (", ").toList ++ year else [])
    if html then
      let line := authors ++ (". ").toList ++ title ++ (". <em>").toList ++
        latex_to_unicode details ++ ("</em>.").toList
      let line := if doi ≠ [] then
          line ++ (" <a href=\"https://doi.org/").toList ++ doi ++ ("\">DOI</a>").toList
        else line
      let line := if hal ≠ [] then
          line ++ (" <a href=\"").toList ++ hal ++ ("\">HAL</a>").toList
        else line
      (some (("journal").toList), some line)
    else
      let line := ("\\item ").toList ++ authors ++ (". ").toList ++ title ++
        (". \\textit\x7b").toList ++ details ++ ("\x7d.").toList
      let line := if doi ≠ [] then
          line ++ (": \\href\x7bhttps://doi.org/").toList ++ doi ++ ("\x7d\x7b").toList ++
            doi ++ ("\x7d").toList
        else line
      (some (("journal").toList), some line)
  else if etype = ("inproceedings").toList then
    let book := eget entry (("booktitle").toList)
    let addr := eget entry (("address").toList)
    let details :=
      book ++ (if addr ≠ [] then (", ").toList ++ addr else []) ++
        (if year ≠ [] then (", ").toList ++ year else [])
    if html then
      let line := authors ++ (". ").toList ++ title ++ (". <em>").toList ++
        latex_to_unicode details ++ ("</em>.").toList
      let line := if doi ≠ [] then
          line ++ (" <a href=\"https://doi.org/").toList ++ doi ++ ("\">DOI</a>").toList
        else line
      let line := if hal ≠ [] then
          line ++ (" <a href=\"").toList ++ hal ++ ("\">HAL</a>").toList
        else line
      (some (("conference").toList), some line)
    else
      let line := ("\\item ").toList ++ authors ++ (". ").toList ++ title ++
        (". \\textit\x7b").toList ++ details ++ ("\x7d.").toList
      let line := if doi ≠ [] then
          line ++ (": \\href\x7bhttps://doi.org/").toList ++ doi ++
            ("\x7d\x7b\\nolinkurl\x7b").toList ++ doi ++ ("\x7d\x7d").toList
        else
          line ++ (": \\href\x7b").toList ++ hal ++ ("\x7d\x7b\\nolinkurl\x7b").toList ++
            hal ++ ("\x7d\x7d").toList
      (some (("conference").toList), some line)
  else (none, none)

/-- The configuration constant `author_to_bold` (src line 11). -/
def author_to_bold : Str := ("Boukraa").toList

theorem pyReplaceAux_id {pat rep : Str} (hb : bslash ∈ pat) :
    ∀ (fuel : Nat) (s : Str), bslash ∉ s → pyReplaceAux pat rep fuel s = s := by
  intro fuel
  induction fuel with
  | zero =>
    intro s _
    cases s <;> rfl
  | succ n ih =>
    intro s hs
    cases s with
    | nil => rfl
    | cons c cs =>
      have hnp : ¬(pat ≠ [] ∧ pat.isPrefixOf (c :: cs)) := by
        rintro ⟨-, hpre⟩
        exact hs ((List.isPrefixOf_iff_prefix.mp hpre).subset hb)
      have hcs : bslash ∉ cs := fun h => hs (List.mem_cons_of_mem _ h)
      simp only [pyReplaceAux]
      rw [if_neg hnp, ih cs hcs]

theorem foldl_pyReplace_id : ∀ (table : List (Str × Str)) (s : Str),
    (∀ p ∈ table, bslash ∈ p.1) → bslash ∉ s →
    table.foldl (fun acc p => pyReplace p.1 p.2 acc) s = s
  | [], _, _, _ => rfl
  | p :: ps, s, ht, hs => by
    rw [List.foldl_cons]
    have h1 : pyReplace p.1 p.2 s = s := pyReplaceAux_id (ht p (by simp)) _ s hs
    rw [h1]
    exact foldl_pyReplace_id ps s (fun q hq => ht q (by simp [hq])) hs

theorem replacements_keys_bslash : ∀ p ∈ replacements, bslash ∈ p.1 := by decide

theorem latex_to_unicode_id {s : Str} (hbs : bslash ∉ s) (hl : lbrace ∉ s) (hr : rbrace ∉ s) :
    latex_to_unicode s = s := by
  unfold latex_to_unicode
  rw [foldl_pyReplace_id replacements s replacements_keys_bslash hbs]
  rw [List.filter_eq_self]
  intro c hc
  have h1 : c ≠ lbrace := fun h => hl (h ▸ hc)
  have h2 : c ≠ rbrace := fun h => hr (h ▸ hc)
  simp [h1, h2]

/-- C8: accent normalization is idempotent on already-normalized, pure-Unicode input — a
string free of backslashes carries no latex escape syntax, and for every such string
normalizing twice equals normalizing once. -/
theorem C8_normalize_idempotent (s : Str) (h : bslash ∉ s) :
    latex_to_unicode (latex_to_unicode s) = latex_to_unicode s := by
  have hfold : replacements.foldl (fun acc p => pyReplace p.1 p.2 acc) s = s :=
    foldl_pyReplace_id replacements s replacements_keys_bslash h
  have h1 : latex_to_unicode s =
      s.filter (fun c => !(c == lbrace || c == rbrace)) := by
    unfold latex_to_unicode
    rw [hfold]
  rw [h1]
  apply latex_to_unicode_id
  · intro hmem
    exact h (List.mem_of_mem_filter hmem)
  · intro hmem
    have := List.of_mem_filter hmem
    simp at this
  · intro hmem
    have := List.of_mem_filter hmem
    simp at this

theorem C8_normalize_idempotent_witness :
    bslash ∉ (("cafe ole, 2020").toList) ∧
    latex_to_unicode (latex_to_unicode (("cafe ole, 2020").toList)) =
      latex_to_unicode (("cafe ole, 2020").toList) :=
  ⟨by decide, C8_normalize_idempotent (("cafe ole, 2020").toList) (by decide)⟩

/-- C9: the worked example — a journal record with authors `A. One and B. Two`, title
`{Study}`, journal `J`, year `2020`, doi `10.1/x`, rendered in the web dialect with the
highlight substring `Two`, yields exactly the entry
`A. One, <strong>B. Two</strong>. Study. <em>J, 2020</em>.` followed by a hyperlink labelled
`DOI` targeting `https://doi.org/10.1/x`, with no HAL link. -/
theorem C9_web_example :
    format_publication (("Two").toList)
      [((("ENTRYTYPE").toList), (("article").toList)),
       ((("author").toList), (("A. One and B. Two").toList)),
       ((("title").toList), (("\x7bStudy\x7d").toList)),
       ((("journal").toList), (("J").toList)),
       ((("year").toList), (("2020").toList)),
       ((("doi").toList), (("10.1/x").toList))] true =
    (some (("journal").toList),
      some (("A. One, <strong>B. Two</strong>. Study. <em>J, 2020</em>. <a href=\"https://doi.org/10.1/x\">DOI</a>").toList)) := by
  decide

/-- C5 counterexample: a title `{{Study}}` is rendered as `Study`, not `{Study}` — Python
`strip("{}")` removes ALL leading and trailing brace characters, not a single non-recursive
brace-group wrapper. -/
theorem C5_counterexample :
    (format_publication author_to_bold
        [((("ENTRYTYPE").toList), (("article").toList)),
         ((("author").toList), (("A").toList)),
         ((("title").toList), (("\x7b\x7bStudy\x7d\x7d").toList)),
         ((("journal").toList), (("J").toList)),
         ((("year").toList), (("2020").toList))] false).2 =
      some (("\\item A. Study. \\textit\x7bJ, 2020\x7d.").toList) ∧
    some (("\\item A. Study. \\textit\x7bJ, 2020\x7d.").toList) ≠
      some (("\\item A. \x7bStudy\x7d. \\textit\x7bJ, 2020\x7d.").toList) := by
  exact ⟨by decide, by decide⟩

/-- C5 (amended): in both dialects the title is stripped of ALL leading and trailing brace
characters (so `{Study}` and `{{Study}}` both become `Study`), and accent normalization is
applied to the title only in the web dialect. -/
theorem C5_amended_title_strip (t : Str) :
    (format_publication author_to_bold
        [((("ENTRYTYPE").toList), (("article").toList)),
         ((("author").toList), (("A").toList)),
         ((("title").toList), t),
         ((("journal").toList), (("J").toList))] false).2 =
      some (("\\item A. ").toList ++ pyStripChars (fun c => c == lbrace || c == rbrace) t ++
        (". \\textit\x7b").toList ++ ("J").toList ++ ("\x7d.").toList) ∧
    (format_publication author_to_bold
        [((("ENTRYTYPE").toList), (("article").toList)),
         ((("author").toList), (("A").toList)),
         ((("title").toList), t),
         ((("journal").toList), (("J").toList))] true).2 =
      some (("A. ").toList ++
        latex_to_unicode (pyStripChars (fun c => c == lbrace || c == rbrace) t) ++
        (". <em>").toList ++ ("J").toList ++ ("</em>.").toList) ∧
    pyStripChars (fun c => c == lbrace || c == rbrace) (("\x7bStudy\x7d").toList) =
      ("Study").toList ∧
    pyStripChars (fun c => c == lbrace || c == rbrace) (("\x7b\x7bStudy\x7d\x7d").toList) =
      ("Study").toList := by
  refine ⟨rfl, ?_, by decide, by decide⟩
  have hENTRYTYPE : eget
      [((("ENTRYTYPE").toList), (("article").toList)),
       ((("author").toList), (("A").toList)),
       ((("title").toList), t),
       ((("journal").toList), (("J").toList))] (("ENTRYTYPE").toList) = ("article").toList := rfl
  have hauthor : eget
      [((("ENTRYTYPE").toList), (("article").toList)),
       ((("author").toList), (("A").toList)),
       ((("title").toList), t),
       ((("journal").toList), (("J").toList))] (("author").toList) = ("A").toList := rfl
  have htitle : eget
      [((("ENTRYTYPE").toList), (("article").toList)),
       ((("author").toList), (("A").toList)),
       ((("title").toList), t),
       ((("journal").toList), (("J").toList))] (("title").toList) = t := rfl
  have hjournal : eget
      [((("ENTRYTYPE").toList), (("article").toList)),
       ((("author").toList), (("A").toList)),
       ((("title").toList), t),
       ((("journal").toList), (("J").toList))] (("journal").toList) = ("J").toList := rfl
  have hyear : eget
      [((("ENTRYTYPE").toList), (("article").toList)),
       ((("author").toList), (("A").toList)),
       ((("title").toList), t),
       ((("journal").toList), (("J").toList))] (("year").toList) = [] := rfl
  have hdoi : eget
      [((("ENTRYTYPE").toList), (("article").toList)),
       ((("author").toList), (("A").toList)),
       ((("title").toList), t),
       ((("journal").toList), (("J").toList))] (("doi").toList) = [] := rfl
  have hhal_id : eget
      [((("ENTRYTYPE").toList), (("article").toList)),
       ((("author").toList), (("A").toList)),
       ((("title").toList), t),
       ((("journal").toList), (("J").toList))] (("hal_id").toList) = [] := rfl
  have hurl : eget
      [((("ENTRYTYPE").toList), (("article").toList)),
       ((("author").toList), (("A").toList)),
       ((("title").toList), t),
       ((("journal").toList), (("J").toList))] (("url").toList) = [] := rfl
  have hvolume : eget
      [((("ENTRYTYPE").toList), (("article").toList)),
       ((("author").toList), (("A").toList)),
       ((("title").toList), t),
       ((("journal").toList), (("J").toList))] (("volume").toList) = [] := rfl
  have hnumber : eget
      [((("ENTRYTYPE").toList), (("article").toList)),
       ((("author").toList), (("A").toList)),
       ((("title").toList), t),
       ((("journal").toList), (("J").toList))] (("number").toList) = [] := rfl
  have hpages : eget
      [((("ENTRYTYPE").toList), (("article").toList)),
       ((("author").toList), (("A").toList)),
       ((("title").toList), t),
       ((("journal").toList), (("J").toList))] (("pages").toList) = [] := rfl
  simp only [format_publication, hENTRYTYPE, hauthor, htitle, hjournal, hyear, hdoi,
    hhal_id, hurl, hvolume, hnumber, hpages]
  simp only [reduceIte]
  generalize latex_to_unicode (pyStripChars (fun c => c == lbrace || c == rbrace) t) = T
  have ha : format_authors author_to_bold (("A").toList) true = ("A").toList := by decide
  have hj : latex_to_unicode [('J')] = [('J')] := by decide
  simp only [ha]
  simp [hj]

theorem isSuffixOf_link_tail (x u1 u2 u3 : Str) :
    (u1 ++ u2 ++ u3).isSuffixOf (x ++ u1 ++ u2 ++ u3) = true := by
  simp only [List.isSuffixOf_iff_suffix]
  exact ⟨x, by simp [List.append_assoc]⟩

/-- C10: for every conference (`inproceedings`) record whose doi, hal_id and url fields are
all absent or empty, the structured-dialect line still ends with the dangling hyperlink
suffix `: \href{}{\nolinkurl{}}`, with empty target and empty label — the trailing link
command of a conference entry is never omitted. -/
theorem C10_conference_empty_link (e : Entry)
    (h1 : (eget e (("ENTRYTYPE").toList)).map Char.toLower = ("inproceedings").toList)
    (h2 : eget e (("doi").toList) = [])
    (h3 : eget e (("hal_id").toList) = [])
    (h4 : eget e (("url").toList) = []) :
    ∃ line, format_publication author_to_bold e false =
        (some (("conference").toList), some line) ∧
      ((": \\href\x7b\x7d\x7b\\nolinkurl\x7b\x7d\x7d").toList).isSuffixOf line = true := by
  simp only [format_publication, h1, h2, h3, h4]
  rw [if_neg (by decide : ¬(("inproceedings").toList = ("article").toList))]
  simp only [if_true, Bool.false_eq_true, if_false, ne_eq, not_true_eq_false, ite_false,
    List.append_nil]
  refine ⟨_, rfl, ?_⟩
  have hs : ((": \\href\x7b\x7d\x7b\\nolinkurl\x7b\x7d\x7d").toList) =
      ((": \\href\x7b").toList ++ ("\x7d\x7b\\nolinkurl\x7b").toList ++ ("\x7d\x7d").toList) :=
    rfl
  rw [hs]
  exact isSuffixOf_link_tail _ _ _ _

theorem C10_conference_empty_link_witness :
    ∃ line, format_publication author_to_bold
        [((("ENTRYTYPE").toList), (("inproceedings").toList)),
         ((("author").toList), (("A").toList)),
         ((("title").toList), (("T").toList)),
         ((("booktitle").toList), (("B").toList)),
         ((("year").toList), (("2021").toList))] false =
        (some (("conference").toList), some line) ∧
      ((": \\href\x7b\x7d\x7b\\nolinkurl\x7b\x7d\x7d").toList).isSuffixOf line = true :=
  C10_conference_empty_link _ (by decide) (by decide) (by decide) (by decide)

/-- Lexicographic comparison of strings by code point: `strLe a b` embeds Python `a <= b`
on strings. -/
def strLe : Str → Str → Bool
  | [], _ => true
  | _ :: _, [] => false
  | a :: as, b :: bs =>
    if a.toNat < b.toNat then true
    else if b.toNat < a.toNat then false
    else strLe as bs

/-- The sort key used by the main flow (src lines 154 and 176): `e.get("year", "0")`. -/
def yearKey (e : Entry) : Str := (List.lookup (("year").toList) e).getD (("0").toList)

/-- Embedding of `bib.entries.sort(key=lambda e: e.get("year", "0"), reverse=True)`
(src line 154; line 176 applies the same ordering to talks): a stable descending sort on
the year STRING, modelled as insertion sort under `yearKey b ≤ yearKey a`. -/
def entries_sorted (es : List Entry) : List Entry :=
  List.insertionSort (fun a b => strLe (yearKey b) (yearKey a) = true) es

/-- The structured-dialect journal bucket of the main flow (src lines 151-159). -/
def journal_tex_entries (es : List Entry) : List Str :=
  (entries_sorted es).filterMap (fun e =>
    if (format_publication author_to_bold e false).1 = some (("journal").toList) then
      (format_publication author_to_bold e false).2
    else none)

/-- Specification-side reading of a year as a number: defined exactly on nonempty
all-digit strings. -/
def isDigitChar (c : Char) : Bool := 48 ≤ c.toNat && c.toNat ≤ 57

/-- Specification-side value of an all-digit string. -/
def digitVal (s : Str) : Nat := s.foldl (fun n c => 10 * n + (c.toNat - 48)) 0

/-- Specification-side numeric year: `some` exactly on nonempty all-digit year strings. -/
def specNumericYear (s : Str) : Option Nat :=
  if s ≠ [] ∧ s.all isDigitChar then some (digitVal s) else none

theorem strLe_total (a b : Str) : strLe a b = true ∨ strLe b a = true := by
  induction a generalizing b with
  | nil => left; rfl
  | cons x xs ih =>
    cases b with
    | nil => right; rfl
    | cons y ys =>
      rcases Nat.lt_trichotomy x.toNat y.toNat with h | h | h
      · left
        simp [strLe, h]
      · rcases ih ys with h2 | h2
        · left
          simp [strLe, h, h2]
        · right
          simp [strLe, h, h2]
      · right
        simp [strLe, h]

theorem strLe_trans : ∀ {a b c : Str}, strLe a b = true → strLe b c = true → strLe a c = true
  | [], _, _, _, _ => rfl
  | x :: xs, [], _, h1, _ => by simp [strLe] at h1
  | _ :: _, _ :: _, [], _, h2 => by simp [strLe] at h2
  | x :: xs, y :: ys, z :: zs, h1, h2 => by
    simp only [strLe] at h1 h2 ⊢
    by_cases hxy : x.toNat < y.toNat
    · by_cases hyz : y.toNat < z.toNat
      · rw [if_pos (show x.toNat < z.toNat by omega)]
      · by_cases hzy : z.toNat < y.toNat
        · rw [if_neg hyz, if_pos hzy] at h2
          exact absurd h2 (by simp)
        · rw [if_pos (show x.toNat < z.toNat by omega)]
    · by_cases hyx : y.toNat < x.toNat
      · rw [if_neg hxy, if_pos hyx] at h1
        exact absurd h1 (by simp)
      · rw [if_neg hxy, if_neg hyx] at h1
        by_cases hyz : y.toNat < z.toNat
        · rw [if_pos (show x.toNat < z.toNat by omega)]
        · by_cases hzy : z.toNat < y.toNat
          · rw [if_neg hyz, if_pos hzy] at h2
            exact absurd h2 (by simp)
          · rw [if_neg hyz, if_neg hzy] at h2
            rw [if_neg (by omega), if_neg (by omega)]
            exact strLe_trans h1 h2

theorem entries_sorted_pairwise (es : List Entry) :
    (entries_sorted es).Pairwise (fun a b => strLe (yearKey b) (yearKey a) = true) := by
  haveI htot : IsTotal Entry (fun a b => strLe (yearKey b) (yearKey a) = true) :=
    ⟨fun a b => (strLe_total (yearKey b) (yearKey a)).elim Or.inl Or.inr⟩
  haveI htr : IsTrans Entry (fun a b => strLe (yearKey b) (yearKey a) = true) :=
    ⟨fun _ _ _ hab hbc => strLe_trans hbc hab⟩
  exact List.sorted_insertionSort _ es

theorem digitVal_shift : ∀ (s : Str) (n : Nat),
    s.foldl (fun m c => 10 * m + (c.toNat - 48)) n = n * 10 ^ s.length + digitVal s
  | [], n => by simp [digitVal]
  | c :: cs, n => by
    have h1 := digitVal_shift cs (10 * n + (c.toNat - 48))
    have h2 := digitVal_shift cs (c.toNat - 48)
    simp only [List.foldl_cons]
    rw [h1]
    have h3 : digitVal (c :: cs) = (c.toNat - 48) * 10 ^ cs.length + digitVal cs := by
      simp only [digitVal, List.foldl_cons]
      rw [show 10 * 0 + (c.toNat - 48) = c.toNat - 48 by omega]
      exact h2
    rw [h3, List.length_cons, pow_succ]
    ring

theorem digitVal_cons (c : Char) (cs : Str) :
    digitVal (c :: cs) = (c.toNat - 48) * 10 ^ cs.length + digitVal cs := by
  have h2 := digitVal_shift cs (c.toNat - 48)
  simp only [digitVal, List.foldl_cons]
  rw [show 10 * 0 + (c.toNat - 48) = c.toNat - 48 by omega]
  exact h2

theorem isDigitChar_bounds {c : Char} (h : isDigitChar c = true) :
    48 ≤ c.toNat ∧ c.toNat ≤ 57 := by
  simp only [isDigitChar, Bool.and_eq_true, decide_eq_true_eq] at h
  exact h

theorem digitVal_lt : ∀ s : Str, s.all isDigitChar = true → digitVal s < 10 ^ s.length
  | [], _ => by simp [digitVal]
  | c :: cs, h => by
    rw [List.all_cons, Bool.and_eq_true] at h
    have hd : c.toNat - 48 ≤ 9 := by
      have := isDigitChar_bounds h.1
      omega
    have hrec := digitVal_lt cs h.2
    rw [digitVal_cons, List.length_cons, pow_succ]
    calc (c.toNat - 48) * 10 ^ cs.length + digitVal cs
        < (c.toNat - 48) * 10 ^ cs.length + 10 ^ cs.length := Nat.add_lt_add_left hrec _
      _ = (c.toNat - 48 + 1) * 10 ^ cs.length := by ring
      _ ≤ 10 * 10 ^ cs.length := Nat.mul_le_mul_right _ (by omega)
      _ = 10 ^ cs.length * 10 := by ring

theorem strLe_digits : ∀ {a b : Str}, a.length = b.length →
    a.all isDigitChar = true → b.all isDigitChar = true →
    strLe a b = true → digitVal a ≤ digitVal b
  | [], [], _, _, _, _ => le_refl _
  | [], _ :: _, h, _, _, _ => by simp at h
  | _ :: _, [], h, _, _, _ => by simp at h
  | x :: xs, y :: ys, hlen, ha, hb, hle => by
    rw [List.all_cons, Bool.and_eq_true] at ha hb
    have hlen2 : xs.length = ys.length := by simpa using hlen
    simp only [strLe] at hle
    rw [digitVal_cons, digitVal_cons, hlen2]
    by_cases hxy : x.toNat < y.toNat
    · have hx48 := isDigitChar_bounds ha.1
      have h1 : digitVal xs < 10 ^ ys.length := hlen2 ▸ digitVal_lt xs ha.2
      refine le_of_lt ?_
      calc (x.toNat - 48) * 10 ^ ys.length + digitVal xs
          < (x.toNat - 48) * 10 ^ ys.length + 10 ^ ys.length := Nat.add_lt_add_left h1 _
        _ = (x.toNat - 48 + 1) * 10 ^ ys.length := by ring
        _ ≤ (y.toNat - 48) * 10 ^ ys.length := Nat.mul_le_mul_right _ (by omega)
        _ ≤ (y.toNat - 48) * 10 ^ ys.length + digitVal ys := Nat.le_add_right _ _
    · by_cases hyx : y.toNat < x.toNat
      · rw [if_neg hxy, if_pos hyx] at hle
        exact absurd hle (by simp)
      · rw [if_neg hxy, if_neg hyx] at hle
        have heq : x.toNat = y.toNat := by omega
        rw [heq]
        exact Nat.add_le_add_left (strLe_digits hlen2 ha.2 hb.2 hle) _

theorem specNumericYear_elim {s : Str} {n : Nat} (h : specNumericYear s = some n) :
    s.all isDigitChar = true ∧ digitVal s = n := by
  unfold specNumericYear at h
  split at h
  · rename_i hc
    exact ⟨hc.2, Option.some_inj.mp h⟩
  · exact Option.noConfusion h

/-- C4 (amended): the record sequence is sorted in descending lexicographic order of the
year STRING, a missing year being treated as `"0"`; buckets are built from the sorted
sequence in order.  Consequently, whenever two records in the sorted output both carry
numeric years with the same number of digits, the later record's year is numerically no
greater than the earlier one's (for differing digit counts the string order can disagree
with the numeric order, as the counterexample shows). -/
theorem C4_amended_sort_order (es : List Entry) (i j : Nat)
    (hi : i < (entries_sorted es).length) (hj : j < (entries_sorted es).length) (hij : i < j)
    (na nb : Nat)
    (ha : specNumericYear (yearKey ((entries_sorted es).getD i [])) = some na)
    (hb : specNumericYear (yearKey ((entries_sorted es).getD j [])) = some nb)
    (hlen : (yearKey ((entries_sorted es).getD i [])).length
        = (yearKey ((entries_sorted es).getD j [])).length) :
    nb ≤ na := by
  have hpw := entries_sorted_pairwise es
  rw [List.pairwise_iff_getElem] at hpw
  have hrel := hpw i j hi hj hij
  have hgi : (entries_sorted es).getD i [] = (entries_sorted es)[i] := by
    rw [List.getD_eq_getElem?_getD, List.getElem?_eq_getElem hi]
    rfl
  have hgj : (entries_sorted es).getD j [] = (entries_sorted es)[j] := by
    rw [List.getD_eq_getElem?_getD, List.getElem?_eq_getElem hj]
    rfl
  rw [hgi] at ha hlen
  rw [hgj] at hb hlen
  obtain ⟨hda, hva⟩ := specNumericYear_elim ha
  obtain ⟨hdb, hvb⟩ := specNumericYear_elim hb
  have := strLe_digits hlen.symm hdb hda hrel
  omega

/-- A demonstration journal record with the four-digit year 2020. -/
def yr2020Entry : Entry :=
  [((("ENTRYTYPE").toList), (("article").toList)),
   ((("author").toList), (("A").toList)),
   ((("title").toList), (("T").toList)),
   ((("journal").toList), (("J").toList)),
   ((("year").toList), (("2020").toList))]

/-- A demonstration journal record with the three-digit year 999. -/
def yr999Entry : Entry :=
  [((("ENTRYTYPE").toList), (("article").toList)),
   ((("author").toList), (("B").toList)),
   ((("title").toList), (("T").toList)),
   ((("journal").toList), (("J").toList)),
   ((("year").toList), (("999").toList))]

/-- A demonstration journal record with the four-digit year 1999. -/
def yr1999Entry : Entry :=
  [((("ENTRYTYPE").toList), (("article").toList)),
   ((("author").toList), (("C").toList)),
   ((("title").toList), (("T").toList)),
   ((("journal").toList), (("J").toList)),
   ((("year").toList), (("1999").toList))]

/-- C4 counterexample: the sort key is the year STRING compared lexicographically, not the
numeric year — a record with numeric year 999 sorts ABOVE a record with the strictly greater
numeric year 2020 (since the character `9` exceeds `2`), so its fragment precedes in the
journal bucket of the structured dialect. -/
theorem C4_counterexample :
    specNumericYear (yearKey yr2020Entry) = some 2020 ∧
    specNumericYear (yearKey yr999Entry) = some 999 ∧
    (999 : Nat) < 2020 ∧
    journal_tex_entries [yr2020Entry, yr999Entry] =
      [("\\item B. T. \\textit\x7bJ, 999\x7d.").toList,
       ("\\item A. T. \\textit\x7bJ, 2020\x7d.").toList] ∧
    ("\\item B. T. \\textit\x7bJ, 999\x7d.").toList ≠
      ("\\item A. T. \\textit\x7bJ, 2020\x7d.").toList := by
  refine ⟨by decide, by decide, by decide, by decide, by decide⟩

theorem C4_amended_sort_order_witness :
    specNumericYear (yearKey ((entries_sorted [yr1999Entry, yr2020Entry]).getD 0 [])) =
      some 2020 ∧
    specNumericYear (yearKey ((entries_sorted [yr1999Entry, yr2020Entry]).getD 1 [])) =
      some 1999 ∧
    (1999 : Nat) ≤ 2020 :=
  ⟨by decide, by decide,
    C4_amended_sort_order [yr1999Entry, yr2020Entry] 0 1 (by decide) (by decide) (by decide)
      2020 1999 (by decide) (by decide) (by decide)⟩

/-- The author-name list computed inside `format_authors` (split on `" and "` after newline
collapsing, each name stripped of surrounding whitespace). -/
def namesOf (authors_raw : Str) : List Str :=
  (pySplit ((" and ").toList) (pyReplace [nl] [spaceChar] authors_raw)).map pyStripWs

theorem format_authors_false_eq (atb A : Str) :
    format_authors atb A false =
      pyJoin ((", ").toList) ((namesOf A).map (fun a =>
        if containsSub a atb then ("\\textbf\x7b").toList ++ (a ++ ("\x7d").toList) else a)) := by
  unfold format_authors
  rw [if_neg (by decide : ¬(false = true))]
  refine congrArg (pyJoin ((", ").toList)) ?_
  unfold namesOf
  rfl

theorem format_authors_true_eq (atb A : Str) :
    format_authors atb A true =
      latex_to_unicode (pyJoin ((", ").toList) ((namesOf A).map (fun a =>
        if containsSub a atb then ("<strong>").toList ++ (a ++ ("</strong>").toList) else a))) := by
  unfold format_authors
  rw [if_pos (rfl : true = true)]
  refine congrArg latex_to_unicode (congrArg (pyJoin ((", ").toList)) ?_)
  unfold namesOf
  rfl

theorem mem_pyReplaceAux {pat rep : Str} {c : Char} :
    ∀ (fuel : Nat) (s : Str), c ∈ pyReplaceAux pat rep fuel s → c ∈ s ∨ c ∈ rep := by
  intro fuel
  induction fuel with
  | zero =>
    intro s h
    cases s with
    | nil => simp [pyReplaceAux] at h
    | cons a as => exact Or.inl h
  | succ n ih =>
    intro s h
    cases s with
    | nil => simp [pyReplaceAux] at h
    | cons a as =>
      simp only [pyReplaceAux] at h
      by_cases hc : pat ≠ [] ∧ pat.isPrefixOf (a :: as)
      · rw [if_pos hc] at h
        rcases List.mem_append.mp h with h1 | h1
        · exact Or.inr h1
        · rcases ih _ h1 with h2 | h2
          · exact Or.inl (List.mem_of_mem_drop h2)
          · exact Or.inr h2
      · rw [if_neg hc] at h
        rcases List.mem_cons.mp h with h1 | h1
        · exact Or.inl (h1 ▸ List.mem_cons_self a as)
        · rcases ih _ h1 with h2 | h2
          · exact Or.inl (List.mem_cons_of_mem _ h2)
          · exact Or.inr h2

theorem mem_pySplitAux {sep : Str} {c : Char} :
    ∀ (fuel : Nat) (s : Str) (p : Str), p ∈ pySplitAux sep fuel s → c ∈ p → c ∈ s := by
  intro fuel
  induction fuel with
  | zero =>
    intro s p hp hc
    cases s with
    | nil =>
      simp [pySplitAux] at hp
      subst hp
      simp at hc
    | cons a as =>
      simp [pySplitAux] at hp
      subst hp
      exact hc
  | succ n ih =>
    intro s p hp hc
    cases s with
    | nil =>
      simp [pySplitAux] at hp
      subst hp
      simp at hc
    | cons a as =>
      simp only [pySplitAux] at hp
      by_cases hcond : sep ≠ [] ∧ sep.isPrefixOf (a :: as)
      · rw [if_pos hcond] at hp
        rcases List.mem_cons.mp hp with h1 | h1
        · subst h1
          simp at hc
        · exact List.mem_of_mem_drop (ih _ _ h1 hc)
      · rw [if_neg hcond] at hp
        rcases hsplit : pySplitAux sep n as with _ | ⟨q, qs⟩
        · rw [hsplit] at hp
          simp only [List.mem_singleton] at hp
          subst hp
          simp only [List.mem_singleton] at hc
          exact hc ▸ List.mem_cons_self a as
        · rw [hsplit] at hp
          rcases List.mem_cons.mp hp with h1 | h1
          · subst h1
            rcases List.mem_cons.mp hc with h2 | h2
            · exact h2 ▸ List.mem_cons_self a as
            · exact List.mem_cons_of_mem _ (ih as q (hsplit ▸ List.mem_cons_self q qs) h2)
          · exact List.mem_cons_of_mem _ (ih as p (hsplit ▸ List.mem_cons_of_mem q h1) hc)

theorem mem_pyStripWs {c : Char} {s : Str} (h : c ∈ pyStripWs s) : c ∈ s := by
  unfold pyStripWs List.rdropWhile at h
  have h1 := List.mem_reverse.mp h
  have h2 := (List.dropWhile_sublist _).subset h1
  have h3 := List.mem_reverse.mp h2
  exact (List.dropWhile_sublist _).subset h3

theorem mem_pyJoin {sep : Str} {c : Char} :
    ∀ (l : List Str), c ∈ pyJoin sep l → c ∈ sep ∨ ∃ x ∈ l, c ∈ x
  | [], h => by simp [pyJoin] at h
  | [x], h => Or.inr ⟨x, by simp, h⟩
  | x :: y :: ys, h => by
    simp only [pyJoin] at h
    rcases List.mem_append.mp h with h1 | h1
    · rcases List.mem_append.mp h1 with h2 | h2
      · exact Or.inr ⟨x, by simp, h2⟩
      · exact Or.inl h2
    · rcases mem_pyJoin (y :: ys) h1 with h2 | h2
      · exact Or.inl h2
      · obtain ⟨z, hz, hcz⟩ := h2
        exact Or.inr ⟨z, List.mem_cons_of_mem _ hz, hcz⟩

theorem pyStripWs_head (s : Str) : (pyStripWs s).head? ≠ some spaceChar := by
  intro h
  rcases hsw : pyStripWs s with _ | ⟨c, cs⟩
  · rw [hsw] at h
    simp at h
  · rw [hsw] at h
    simp only [List.head?_cons, Option.some_inj] at h
    subst h
    unfold pyStripWs at hsw
    have hpre := List.rdropWhile_prefix Char.isWhitespace (s.dropWhile Char.isWhitespace)
    rw [hsw] at hpre
    obtain ⟨t, ht⟩ := hpre
    have hhead := List.head?_dropWhile_not Char.isWhitespace s
    rw [← ht] at hhead
    simp only [List.cons_append, List.head?_cons] at hhead
    exact absurd hhead (by decide)

/-- Specification-side web-markup stripper (modelling the claim's "stripping all markup"):
delete every `<...>` tag span; the Boolean state is `true` while inside a tag. -/
def stripHtmlAux : Bool → Str → Str
  | _, [] => []
  | false, c :: cs => if c = '<' then stripHtmlAux true cs else c :: stripHtmlAux false cs
  | true, c :: cs => if c = '>' then stripHtmlAux false cs else stripHtmlAux true cs

/-- Specification-side structured-markup stripper (modelling the claim's "stripping all
markup and escape syntax"): delete every backslash command (a backslash followed by letters,
together with the spaces after it, as the downstream compiler consumes them) and every brace.
State 0 reads plain text, state 1 is inside a command name, state 2 skips post-command
spaces. -/
def stripTexAux : Nat → Str → Str
  | _, [] => []
  | 0, c :: cs =>
    if c = bslash then stripTexAux 1 cs
    else if c = lbrace ∨ c = rbrace then stripTexAux 0 cs
    else c :: stripTexAux 0 cs
  | 1, c :: cs =>
    if c.isAlpha then stripTexAux 1 cs
    else if c = spaceChar then stripTexAux 2 cs
    else if c = bslash then stripTexAux 1 cs
    else if c = lbrace ∨ c = rbrace then stripTexAux 0 cs
    else c :: stripTexAux 0 cs
  | _, c :: cs =>
    if c = spaceChar then stripTexAux 2 cs
    else if c = bslash then stripTexAux 1 cs
    else if c = lbrace ∨ c = rbrace then stripTexAux 0 cs
    else c :: stripTexAux 0 cs

theorem stripHtml_copy {xs : Str} (h : ('<') ∉ xs) (ys : Str) :
    stripHtmlAux false (xs ++ ys) = xs ++ stripHtmlAux false ys := by
  induction xs with
  | nil => rfl
  | cons c cs ih =>
    have hc : c ≠ '<' := fun hh => h (hh ▸ List.mem_cons_self c cs)
    have hcs : ('<') ∉ cs := fun hh => h (List.mem_cons_of_mem _ hh)
    simp only [List.cons_append, stripHtmlAux, if_neg hc, List.append_eq]
    rw [ih hcs]

theorem stripTex_copy {xs : Str} (hb : bslash ∉ xs) (hl : lbrace ∉ xs) (hr : rbrace ∉ xs)
    (ys : Str) : stripTexAux 0 (xs ++ ys) = xs ++ stripTexAux 0 ys := by
  induction xs with
  | nil => rfl
  | cons c cs ih =>
    have h1 : c ≠ bslash := fun hh => hb (hh ▸ List.mem_cons_self c cs)
    have h2 : ¬(c = lbrace ∨ c = rbrace) := by
      rintro (hh | hh)
      · exact hl (hh ▸ List.mem_cons_self c cs)
      · exact hr (hh ▸ List.mem_cons_self c cs)
    have hbs : bslash ∉ cs := fun hh => hb (List.mem_cons_of_mem _ hh)
    have hls : lbrace ∉ cs := fun hh => hl (List.mem_cons_of_mem _ hh)
    have hrs : rbrace ∉ cs := fun hh => hr (List.mem_cons_of_mem _ hh)
    simp only [List.cons_append, stripTexAux, if_neg h1, if_neg h2, List.append_eq]
    rw [ih hbs hls hrs]

theorem stripTex_state2 {z : Str} (h : z.head? ≠ some spaceChar) :
    stripTexAux 2 z = stripTexAux 0 z := by
  cases z with
  | nil => rfl
  | cons c cs =>
    have hc : c ≠ spaceChar := fun hh => h (by simp [hh])
    by_cases h1 : c = bslash
    · simp only [stripTexAux, if_neg hc, if_pos h1]
    · by_cases h2 : c = lbrace ∨ c = rbrace
      · simp only [stripTexAux, if_neg hc, if_neg h1, if_pos h2]
      · simp only [stripTexAux, if_neg hc, if_neg h1, if_neg h2]

theorem stripTex_item (ys : Str) :
    stripTexAux 0 (("\\item ").toList ++ ys) = stripTexAux 2 ys := rfl

theorem stripTex_textbf (ys : Str) :
    stripTexAux 0 (("\\textbf\x7b").toList ++ ys) = stripTexAux 0 ys := rfl

theorem stripTex_textit (ys : Str) :
    stripTexAux 0 (("\\textit\x7b").toList ++ ys) = stripTexAux 0 ys := rfl

theorem stripHtml_strong (ys : Str) :
    stripHtmlAux false (("<strong>").toList ++ ys) = stripHtmlAux false ys := rfl

theorem stripHtml_strong_close (ys : Str) :
    stripHtmlAux false (("</strong>").toList ++ ys) = stripHtmlAux false ys := rfl

theorem stripHtml_em (ys : Str) :
    stripHtmlAux false (("<em>").toList ++ ys) = stripHtmlAux false ys := rfl

theorem stripHtml_em_close (ys : Str) :
    stripHtmlAux false (("</em>").toList ++ ys) = stripHtmlAux false ys := rfl

/-- Markup-cleanliness of a free-text field value: none of backslash, braces, or `<`. -/
def cleanStr (s : Str) : Prop :=
  bslash ∉ s ∧ lbrace ∉ s ∧ rbrace ∉ s ∧ ('<') ∉ s

instance (s : Str) : Decidable (cleanStr s) := by
  unfold cleanStr
  infer_instance

theorem clean_append {x y : Str} (hx : cleanStr x) (hy : cleanStr y) : cleanStr (x ++ y) := by
  obtain ⟨x1, x2, x3, x4⟩ := hx
  obtain ⟨y1, y2, y3, y4⟩ := hy
  refine ⟨?_, ?_, ?_, ?_⟩ <;> intro hmem <;> rcases List.mem_append.mp hmem with h | h
  · exact x1 h
  · exact y1 h
  · exact x2 h
  · exact y2 h
  · exact x3 h
  · exact y3 h
  · exact x4 h
  · exact y4 h

theorem clean_ite {P : Prop} [Decidable P] {x y : Str} (hx : cleanStr x) (hy : cleanStr y) :
    cleanStr (if P then x else y) := by
  by_cases h : P
  · rwa [if_pos h]
  · rwa [if_neg h]

theorem namesOf_clean {A : Str} (hA : cleanStr A) : ∀ n ∈ namesOf A, cleanStr n := by
  intro n hn
  simp only [namesOf, List.mem_map] at hn
  obtain ⟨p, hp, rfl⟩ := hn
  have hsub : ∀ c ∈ pyStripWs p, c ∈ A ∨ c = spaceChar := by
    intro c hc
    have h1 : c ∈ p := mem_pyStripWs hc
    have h2 : c ∈ pyReplaceAux [nl] [spaceChar] A.length A := mem_pySplitAux _ _ _ hp h1
    rcases mem_pyReplaceAux _ _ h2 with h3 | h3
    · exact Or.inl h3
    · right
      simpa using h3
  refine ⟨?_, ?_, ?_, ?_⟩ <;> intro hmem <;> rcases hsub _ hmem with h | h
  · exact hA.1 h
  · exact absurd h (by decide)
  · exact hA.2.1 h
  · exact absurd h (by decide)
  · exact hA.2.2.1 h
  · exact absurd h (by decide)
  · exact hA.2.2.2 h
  · exact absurd h (by decide)

theorem namesOf_head (A : Str) : ∀ n ∈ namesOf A, n.head? ≠ some spaceChar := by
  intro n hn
  simp only [namesOf, List.mem_map] at hn
  obtain ⟨p, _, rfl⟩ := hn
  exact pyStripWs_head p

theorem append_assoc4 (a b c d : Str) : (a ++ b ++ c) ++ d = a ++ (b ++ (c ++ d)) := by
  simp [List.append_assoc]

theorem stripTex_rbrace7d (ys : Str) :
    stripTexAux 0 (("\x7d").toList ++ ys) = stripTexAux 0 ys := rfl

theorem stripTex_wrap {atb n : Str} (hc : cleanStr n) (ys : Str) :
    stripTexAux 0 ((if containsSub n atb then
        ("\\textbf\x7b").toList ++ (n ++ ("\x7d").toList) else n) ++ ys)
      = n ++ stripTexAux 0 ys := by
  obtain ⟨h1, h2, h3, _⟩ := hc
  by_cases hw : containsSub n atb
  · rw [if_pos hw]
    have hre : (("\\textbf\x7b").toList ++ (n ++ ("\x7d").toList)) ++ ys
        = ("\\textbf\x7b").toList ++ (n ++ (("\x7d").toList ++ ys)) := by
      simp [List.append_assoc]
    rw [hre, stripTex_textbf, stripTex_copy h1 h2 h3, stripTex_rbrace7d]
  · rw [if_neg hw]
    exact stripTex_copy h1 h2 h3 ys

theorem stripHtml_wrap {atb n : Str} (hc : cleanStr n) (ys : Str) :
    stripHtmlAux false ((if containsSub n atb then
        ("<strong>").toList ++ (n ++ ("</strong>").toList) else n) ++ ys)
      = n ++ stripHtmlAux false ys := by
  obtain ⟨_, _, _, h4⟩ := hc
  by_cases hw : containsSub n atb
  · rw [if_pos hw]
    have hre : (("<strong>").toList ++ (n ++ ("</strong>").toList)) ++ ys
        = ("<strong>").toList ++ (n ++ (("</strong>").toList ++ ys)) := by
      simp [List.append_assoc]
    rw [hre, stripHtml_strong, stripHtml_copy h4, stripHtml_strong_close]
  · rw [if_neg hw]
    exact stripHtml_copy h4 ys

theorem stripTex_copy_ite {P : Prop} [Decidable P] {x y : Str}
    (hx : cleanStr x) (hy : cleanStr y) (ys : Str) :
    stripTexAux 0 ((if P then x else y) ++ ys) = (if P then x else y) ++ stripTexAux 0 ys := by
  by_cases h : P
  · simp only [if_pos h]
    exact stripTex_copy hx.1 hx.2.1 hx.2.2.1 ys
  · simp only [if_neg h]
    exact stripTex_copy hy.1 hy.2.1 hy.2.2.1 ys

theorem stripHtml_copy_ite {P : Prop} [Decidable P] {x y : Str}
    (hx : cleanStr x) (hy : cleanStr y) (ys : Str) :
    stripHtmlAux false ((if P then x else y) ++ ys)
      = (if P then x else y) ++ stripHtmlAux false ys := by
  by_cases h : P
  · simp only [if_pos h]
    exact stripHtml_copy hx.2.2.2 ys
  · simp only [if_neg h]
    exact stripHtml_copy hy.2.2.2 ys

theorem head?_ne_space_append {x ys : Str} (hx : x.head? ≠ some spaceChar) (hne : x ≠ []) :
    ((x ++ ys).head?) ≠ some spaceChar := by
  cases x with
  | nil => exact absurd rfl hne
  | cons a as =>
    simpa using hx

theorem stripTex_join (atb : Str) : ∀ (names : List Str) (ys : Str),
    (∀ n ∈ names, cleanStr n) →
    stripTexAux 0 (pyJoin ((", ").toList) (names.map (fun a =>
        if containsSub a atb then ("\\textbf\x7b").toList ++ (a ++ ("\x7d").toList) else a))
      ++ ys) = pyJoin ((", ").toList) names ++ stripTexAux 0 ys
  | [], ys, _ => by simp [pyJoin]
  | [n], ys, h => by
    simp only [List.map_cons, List.map_nil, pyJoin]
    exact stripTex_wrap (h n (by simp)) ys
  | n :: m :: rest, ys, h => by
    simp only [List.map_cons, pyJoin]
    rw [append_assoc4, stripTex_wrap (h n (by simp))]
    rw [stripTex_copy (by decide) (by decide) (by decide)]
    have hIH := stripTex_join atb (m :: rest) ys (fun q hq => h q (List.mem_cons_of_mem _ hq))
    simp only [List.map_cons] at hIH
    rw [hIH]
    simp [List.append_assoc]

theorem stripHtml_join (atb : Str) : ∀ (names : List Str) (ys : Str),
    (∀ n ∈ names, cleanStr n) →
    stripHtmlAux false (pyJoin ((", ").toList) (names.map (fun a =>
        if containsSub a atb then ("<strong>").toList ++ (a ++ ("</strong>").toList) else a))
      ++ ys) = pyJoin ((", ").toList) names ++ stripHtmlAux false ys
  | [], ys, _ => by simp [pyJoin]
  | [n], ys, h => by
    simp only [List.map_cons, List.map_nil, pyJoin]
    exact stripHtml_wrap (h n (by simp)) ys
  | n :: m :: rest, ys, h => by
    simp only [List.map_cons, pyJoin]
    rw [append_assoc4, stripHtml_wrap (h n (by simp))]
    rw [stripHtml_copy (by decide)]
    have hIH := stripHtml_join atb (m :: rest) ys (fun q hq => h q (List.mem_cons_of_mem _ hq))
    simp only [List.map_cons] at hIH
    rw [hIH]
    simp [List.append_assoc]

theorem texJoin_head (atb : Str) : ∀ (names : List Str) (ys : Str),
    (∀ n ∈ names, n.head? ≠ some spaceChar) → ys.head? ≠ some spaceChar →
    ((pyJoin ((", ").toList) (names.map (fun a =>
        if containsSub a atb then ("\\textbf\x7b").toList ++ (a ++ ("\x7d").toList) else a))
      ++ ys).head?) ≠ some spaceChar
  | [], ys, _, hy => by simpa [pyJoin] using hy
  | [n], ys, h, hy => by
    simp only [List.map_cons, List.map_nil, pyJoin]
    by_cases hw : containsSub n atb
    · rw [if_pos hw]
      simp only [List.append_assoc]
      exact head?_ne_space_append (by decide) (by decide)
    · rw [if_neg hw]
      cases n with
      | nil => simpa using hy
      | cons a as =>
        exact head?_ne_space_append (h (a :: as) (by simp)) (by simp)
  | n :: m :: rest, ys, h, hy => by
    simp only [List.map_cons, pyJoin]
    by_cases hw : containsSub n atb
    · rw [if_pos hw]
      simp only [List.append_assoc]
      exact head?_ne_space_append (by decide) (by decide)
    · rw [if_neg hw]
      cases n with
      | nil =>
        simp only [List.nil_append, List.append_assoc]
        exact head?_ne_space_append (by decide) (by decide)
      | cons a as =>
        simp only [List.append_assoc]
        exact head?_ne_space_append (h (a :: as) (by simp)) (by simp)

theorem latex_to_unicode_id_clean {s : Str} (h : bslash ∉ s ∧ lbrace ∉ s ∧ rbrace ∉ s) :
    latex_to_unicode s = s :=
  latex_to_unicode_id h.1 h.2.1 h.2.2

theorem dropWhile_id {p : Char → Bool} {s : Str} (h : ∀ c ∈ s, p c = false) :
    s.dropWhile p = s := by
  cases s with
  | nil => rfl
  | cons a as =>
    rw [List.dropWhile_cons, if_neg (by simp [h a (List.mem_cons_self a as)])]

theorem pyStripChars_id {p : Char → Bool} {s : Str} (h : ∀ c ∈ s, p c = false) :
    pyStripChars p s = s := by
  unfold pyStripChars List.rdropWhile
  rw [dropWhile_id h, dropWhile_id (fun c hc => h c (List.mem_reverse.mp hc)),
    List.reverse_reverse]

theorem title_strip_id {T : Str} (hT : cleanStr T) :
    pyStripChars (fun c => c == lbrace || c == rbrace) T = T := by
  refine pyStripChars_id ?_
  intro c hc
  have h1 : c ≠ lbrace := fun hh => hT.2.1 (hh ▸ hc)
  have h2 : c ≠ rbrace := fun hh => hT.2.2.1 (hh ▸ hc)
  simp [h1, h2]

theorem webJoin_clean {atb : Str} {names : List Str} (h : ∀ n ∈ names, cleanStr n) :
    bslash ∉ pyJoin ((", ").toList) (names.map (fun a =>
        if containsSub a atb then ("<strong>").toList ++ (a ++ ("</strong>").toList) else a)) ∧
    lbrace ∉ pyJoin ((", ").toList) (names.map (fun a =>
        if containsSub a atb then ("<strong>").toList ++ (a ++ ("</strong>").toList) else a)) ∧
    rbrace ∉ pyJoin ((", ").toList) (names.map (fun a =>
        if containsSub a atb then ("<strong>").toList ++ (a ++ ("</strong>").toList) else a)) := by
  have key : ∀ c, c ∈ pyJoin ((", ").toList) (names.map (fun a =>
      if containsSub a atb then ("<strong>").toList ++ (a ++ ("</strong>").toList) else a)) →
      c ≠ bslash → c ≠ lbrace → c ≠ rbrace → True := fun _ _ _ _ _ => trivial
  refine ⟨?_, ?_, ?_⟩ <;> intro hmem <;>
    rcases mem_pyJoin _ hmem with hsep | ⟨x, hx, hcx⟩
  · exact absurd hsep (by decide)
  · obtain ⟨q, hq, rfl⟩ := List.mem_map.mp hx
    have hclean := h q hq
    by_cases hw : containsSub q atb
    · rw [if_pos hw] at hcx
      rcases List.mem_append.mp hcx with h1 | h1
      · exact absurd h1 (by decide)
      · rcases List.mem_append.mp h1 with h2 | h2
        · exact hclean.1 h2
        · exact absurd h2 (by decide)
    · rw [if_neg hw] at hcx
      exact hclean.1 hcx
  · exact absurd hsep (by decide)
  · obtain ⟨q, hq, rfl⟩ := List.mem_map.mp hx
    have hclean := h q hq
    by_cases hw : containsSub q atb
    · rw [if_pos hw] at hcx
      rcases List.mem_append.mp hcx with h1 | h1
      · exact absurd h1 (by decide)
      · rcases List.mem_append.mp h1 with h2 | h2
        · exact hclean.2.1 h2
        · exact absurd h2 (by decide)
    · rw [if_neg hw] at hcx
      exact hclean.2.1 hcx
  · exact absurd hsep (by decide)
  · obtain ⟨q, hq, rfl⟩ := List.mem_map.mp hx
    have hclean := h q hq
    by_cases hw : containsSub q atb
    · rw [if_pos hw] at hcx
      rcases List.mem_append.mp hcx with h1 | h1
      · exact absurd h1 (by decide)
      · rcases List.mem_append.mp h1 with h2 | h2
        · exact hclean.2.2.1 h2
        · exact absurd h2 (by decide)
    · rw [if_neg hw] at hcx
      exact hclean.2.2.1 hcx

/-- An article record with the given free-text field values and no doi, hal_id or url
fields. -/
def articleEntry (author title journal volume number pages year : Str) : Entry :=
  [((("ENTRYTYPE").toList), (("article").toList)),
   ((("author").toList), author),
   ((("title").toList), title),
   ((("journal").toList), journal),
   ((("volume").toList), volume),
   ((("number").toList), number),
   ((("pages").toList), pages),
   ((("year").toList), year)]

/-- C3 (amended): for an article record whose free-text fields contain no backslash, no
braces and no `<` (so accent escapes and markup cannot occur inside field values) and which
has no doi, hal_id or url field, the structured-dialect and web-dialect lines of
format_publication agree after stripping markup: removing the leading item marker, the
bold/italic wrappers and the brace characters from the structured line, and removing the
HTML tags from the web line, yields the same string. The unqualified claim over every
record is refuted by C3_counterexample: a record with a hal_id gets an extra visible
"HAL" label in the web dialect only. -/
theorem C3_amended_stripped_equal (A T J V N P Y : Str)
    (hA : cleanStr A) (hT : cleanStr T) (hJ : cleanStr J) (hV : cleanStr V)
    (hN : cleanStr N) (hP : cleanStr P) (hY : cleanStr Y) :
    ∃ texline webline,
      format_publication author_to_bold (articleEntry A T J V N P Y) false =
        (some (("journal").toList), some texline) ∧
      format_publication author_to_bold (articleEntry A T J V N P Y) true =
        (some (("journal").toList), some webline) ∧
      stripTexAux 0 texline = stripHtmlAux false webline := by
  have hET : eget (articleEntry A T J V N P Y) (("ENTRYTYPE").toList) = ("article").toList := rfl
  have hau : eget (articleEntry A T J V N P Y) (("author").toList) = A := rfl
  have hti : eget (articleEntry A T J V N P Y) (("title").toList) = T := rfl
  have hjo : eget (articleEntry A T J V N P Y) (("journal").toList) = J := rfl
  have hvo : eget (articleEntry A T J V N P Y) (("volume").toList) = V := rfl
  have hnu : eget (articleEntry A T J V N P Y) (("number").toList) = N := rfl
  have hpa : eget (articleEntry A T J V N P Y) (("pages").toList) = P := rfl
  have hye : eget (articleEntry A T J V N P Y) (("year").toList) = Y := rfl
  have hdo : eget (articleEntry A T J V N P Y) (("doi").toList) = [] := rfl
  have hha : eget (articleEntry A T J V N P Y) (("hal_id").toList) = [] := rfl
  have hur : eget (articleEntry A T J V N P Y) (("url").toList) = [] := rfl
  simp only [format_publication, hET, hau, hti, hjo, hvo, hnu, hpa, hye, hdo, hha, hur]
  simp only [reduceIte]
  have hni : ¬(([] : Str) ≠ []) := by decide
  simp only [if_neg hni]
  refine ⟨_, _, rfl, rfl, ?_⟩
  have hnc : ∀ n ∈ namesOf A, cleanStr n := namesOf_clean hA
  have hD : cleanStr (J ++ (if V ≠ [] then (", ").toList ++ V else []) ++
      (if N ≠ [] then ("(").toList ++ N ++ (")").toList else []) ++
      (if P ≠ [] then (", ").toList ++ P else []) ++
      (if Y ≠ [] then (", ").toList ++ Y else [])) := by
    refine clean_append (clean_append (clean_append (clean_append hJ ?_) ?_) ?_) ?_
    · exact clean_ite (clean_append (by decide) hV) (by decide)
    · exact clean_ite (clean_append (clean_append (by decide) hN) (by decide)) (by decide)
    · exact clean_ite (clean_append (by decide) hP) (by decide)
    · exact clean_ite (clean_append (by decide) hY) (by decide)
  rw [title_strip_id hT, format_authors_false_eq, format_authors_true_eq]
  rw [latex_to_unicode_id_clean (webJoin_clean hnc)]
  rw [latex_to_unicode_id_clean ⟨hT.1, hT.2.1, hT.2.2.1⟩]
  rw [latex_to_unicode_id_clean ⟨hD.1, hD.2.1, hD.2.2.1⟩]
  simp only [List.append_assoc]
  rw [stripTex_item]
  rw [stripTex_state2 (texJoin_head author_to_bold (namesOf A) _ (namesOf_head A)
    (head?_ne_space_append (by decide) (by decide)))]
  rw [stripTex_join author_to_bold (namesOf A) _ hnc]
  rw [stripHtml_join author_to_bold (namesOf A) _ hnc]
  rw [stripTex_copy (by decide : bslash ∉ (". ").toList)
    (by decide : lbrace ∉ (". ").toList) (by decide : rbrace ∉ (". ").toList)]
  rw [stripHtml_copy (by decide : ('<') ∉ (". ").toList)]
  simp only [Bool.false_eq_true, if_false]
  rw [stripTex_copy hT.1 hT.2.1 hT.2.2.1, stripHtml_copy hT.2.2.2]
  rw [show (". \\textit\x7b").toList = (". ").toList ++ ("\\textit\x7b").toList from rfl]
  rw [show (". <em>").toList = (". ").toList ++ ("<em>").toList from rfl]
  simp only [List.append_assoc]
  rw [stripTex_copy (by decide : bslash ∉ (". ").toList)
    (by decide : lbrace ∉ (". ").toList) (by decide : rbrace ∉ (". ").toList)]
  rw [stripHtml_copy (by decide : ('<') ∉ (". ").toList)]
  rw [stripTex_textit, stripHtml_em]
  have hcV : cleanStr ((", ").toList ++ V) := clean_append (by decide) hV
  have hcN : cleanStr (("(").toList ++ (N ++ ((")").toList))) :=
    clean_append (by decide) (clean_append hN (by decide))
  have hcP : cleanStr ((", ").toList ++ P) := clean_append (by decide) hP
  have hcY : cleanStr ((", ").toList ++ Y) := clean_append (by decide) hY
  have hcE : cleanStr ([] : Str) := by decide
  rw [stripTex_copy hJ.1 hJ.2.1 hJ.2.2.1, stripHtml_copy hJ.2.2.2]
  rw [stripTex_copy_ite hcV hcE, stripTex_copy_ite hcN hcE, stripTex_copy_ite hcP hcE,
    stripTex_copy_ite hcY hcE]
  rw [stripHtml_copy_ite hcV hcE, stripHtml_copy_ite hcN hcE, stripHtml_copy_ite hcP hcE,
    stripHtml_copy_ite hcY hcE]
  rw [show stripTexAux 0 (("\x7d.").toList) = (".").toList from rfl]
  rw [show stripHtmlAux false (("</em>.").toList) = (".").toList from rfl]

theorem C3_amended_stripped_equal_witness :
    ∃ texline webline,
      format_publication author_to_bold
          (articleEntry (("A. One and B. Boukraa").toList) (("Waves").toList) (("J").toList)
            (("5").toList) (("2").toList) (("10-20").toList) (("2020").toList)) false =
        (some (("journal").toList), some texline) ∧
      format_publication author_to_bold
          (articleEntry (("A. One and B. Boukraa").toList) (("Waves").toList) (("J").toList)
            (("5").toList) (("2").toList) (("10-20").toList) (("2020").toList)) true =
        (some (("journal").toList), some webline) ∧
      stripTexAux 0 texline = stripHtmlAux false webline :=
  C3_amended_stripped_equal (("A. One and B. Boukraa").toList) (("Waves").toList)
    (("J").toList) (("5").toList) (("2").toList) (("10-20").toList) (("2020").toList)
    (by decide) (by decide) (by decide) (by decide) (by decide) (by decide) (by decide)

/-- An article record that has a hal_id field: the web dialect appends a visible "HAL"
link label that the structured dialect does not have. -/
def halEntry : Entry :=
  [((("ENTRYTYPE").toList), (("article").toList)),
   ((("author").toList), (("A").toList)),
   ((("title").toList), (("T").toList)),
   ((("journal").toList), (("J").toList)),
   ((("year").toList), (("2020").toList)),
   ((("hal_id").toList), (("h").toList))]

/-- C3 counterexample: on halEntry both dialects produce a journal line, but stripping
markup from the two lines gives different strings — the web line ends in ". HAL" while
the structured line ends in ".", because the journal structured branch never renders the
HAL link while the web branch always does. -/
theorem C3_counterexample :
    (format_publication author_to_bold halEntry false).1 = some (("journal").toList) ∧
    (format_publication author_to_bold halEntry true).1 = some (("journal").toList) ∧
    stripTexAux 0 (((format_publication author_to_bold halEntry false).2).getD []) ≠
      stripHtmlAux false (((format_publication author_to_bold halEntry true).2).getD []) := by
  decide

end PubGen
